import Mathlib

/-!
Verification development for a minimal bare-metal text I/O subsystem
(PS/2 keyboard polling plus a VGA text-mode rendering engine).

The definitions below are a shallow embedding of the Rust sources:
`io/stdout/structs.rs` (layout engine), `io/stdout/mod.rs` (buffer writer
and cursor), `io/stdout/colors.rs`, `io/stdin/keyboard.rs` (scancode
handling) and `main.rs` (main-loop cursor).  Machine integers (`u8`) are
modelled as `Nat` with explicit `% 256` wherever the source can overflow;
the memory-mapped VGA buffer is modelled as a total function from byte
index to byte value.
-/

namespace Kernel

set_option maxRecDepth 10000

/-! ## Geometry constants (`io/stdout/mod.rs`) -/

def VGA_WIDTH : Nat := 80

def VGA_HEIGHT : Nat := 25

def VGA_BUFFER_SIZE : Nat := VGA_WIDTH * VGA_HEIGHT * 2

/-! ## Colors (`io/stdout/colors.rs`) -/

def BLACK : Nat := 0x0

def RED : Nat := 0x4

def LIGHT_GRAY : Nat := 0x7

def make_color (foreground background : Nat) : Nat :=
  (foreground &&& 0x0F) ||| ((background &&& 0x0F) <<< 4)

def get_foreground (color_byte : Nat) : Nat :=
  color_byte &&& 0x0F

def get_background (color_byte : Nat) : Nat :=
  (color_byte >>> 4) &&& 0x0F

def is_valid_color (color : Nat) : Bool :=
  color ≤ 0xF

def make_color_safe (foreground background : Nat) : Nat :=
  let safe_fg := if is_valid_color foreground then foreground else LIGHT_GRAY
  let safe_bg := if is_valid_color background then background else BLACK
  make_color safe_fg safe_bg

/-! ## Printable character records (`io/stdout/structs.rs`) -/

structure SysPrintableChar where
  character : Nat
  color : Nat
  x : Nat
  y : Nat
deriving DecidableEq, Repr

def SysPrintableChar.new (character color x y : Nat) : SysPrintableChar :=
  { character := character, color := color, x := x, y := y }

def SysPrintableChar.is_valid (s : SysPrintableChar) : Bool :=
  s.x < VGA_WIDTH && s.y < VGA_HEIGHT

/-- `u8::is_ascii_graphic`: the byte range `0x21 ..= 0x7E`. -/
def isAsciiGraphic (b : Nat) : Bool :=
  0x21 ≤ b && b ≤ 0x7E

/-! ## Text positions (`TextPosition` in `io/stdout/structs.rs`).
`x` and `y` are `u8` in the source; increments are taken modulo 256. -/

structure TextPosition where
  x : Nat
  y : Nat
deriving DecidableEq, Repr

def TextPosition.advance (p : TextPosition) : TextPosition :=
  { p with x := (p.x + 1) % 256 }

def TextPosition.new_line (p : TextPosition) (start_x : Nat) : TextPosition :=
  { x := start_x, y := (p.y + 1) % 256 }

def TextPosition.carriage_return (p : TextPosition) (start_x : Nat) : TextPosition :=
  { p with x := start_x }

def TextPosition.is_out_of_bounds (p : TextPosition) : Bool :=
  VGA_HEIGHT ≤ p.y

/-! ## Eager conversion (`SysPrintableChar::new_string`).
The output vector is a `heapless::Vec<_, 2000>`; `vecPush` models its
silently-failing `push`, and the `2000 ≤ length` tests model `is_full`. -/

def vecPush (l : List SysPrintableChar) (c : SysPrintableChar) : List SysPrintableChar :=
  if l.length < 2000 then l ++ [c] else l

/-- The inner `for _ in 0..4` loop of the `\t` arm of `new_string`. -/
def tabLoop (color : Nat) : Nat → TextPosition → List SysPrintableChar →
    TextPosition × List SysPrintableChar
  | 0, p, chars => (p, chars)
  | n + 1, p, chars =>
    if p.is_out_of_bounds ∨ 2000 ≤ chars.length then (p, chars)
    else tabLoop color n p.advance (vecPush chars (SysPrintableChar.new 32 color p.x p.y))

/-- The byte loop of `SysPrintableChar::new_string`. -/
def newStringGo (color start_x : Nat) : List Nat → TextPosition → List SysPrintableChar →
    List SysPrintableChar
  | [], _, chars => chars
  | b :: rest, p, chars =>
    if p.is_out_of_bounds ∨ 2000 ≤ chars.length then chars
    else if b = 10 then
      newStringGo color start_x rest (p.new_line start_x) chars
    else if b = 13 then
      newStringGo color start_x rest (p.carriage_return start_x) chars
    else if b = 9 then
      let pc := tabLoop color 4 p chars
      newStringGo color start_x rest pc.1 pc.2
    else if isAsciiGraphic b ∨ b = 32 then
      if VGA_WIDTH ≤ p.x then
        let p2 := p.new_line start_x
        if p2.is_out_of_bounds then chars
        else
          newStringGo color start_x rest p2.advance
            (vecPush chars (SysPrintableChar.new b color p2.x p2.y))
      else
        newStringGo color start_x rest p.advance
          (vecPush chars (SysPrintableChar.new b color p.x p.y))
    else
      newStringGo color start_x rest p chars

def new_string (buffer : List Nat) (color start_x start_y : Nat) : List SysPrintableChar :=
  newStringGo color start_x buffer (TextPosition.mk start_x start_y) []

/-! ## Lazy conversion (`SysPrintableChar::chars_from_string`).
The source is a `filter_map` over the bytes with a captured mutable
`TextPosition`; `lazyStep` is the closure's effect on one byte (new
position, optional emitted record). -/

def lazyStep (color start_x : Nat) (p : TextPosition) (b : Nat) :
    TextPosition × Option SysPrintableChar :=
  if p.is_out_of_bounds then (p, none)
  else if b = 10 then (p.new_line start_x, none)
  else if b = 13 then (p.carriage_return start_x, none)
  else if isAsciiGraphic b ∨ b = 32 then
    if VGA_WIDTH ≤ p.x then
      let p2 := p.new_line start_x
      if p2.is_out_of_bounds then (p2, none)
      else (p2.advance, some (SysPrintableChar.new b color p2.x p2.y))
    else (p.advance, some (SysPrintableChar.new b color p.x p.y))
  else (p, none)

def charsFromStringGo (color start_x : Nat) : List Nat → TextPosition → List SysPrintableChar
  | [], _ => []
  | b :: rest, p =>
    let pr := lazyStep color start_x p b
    match pr.2 with
    | none => charsFromStringGo color start_x rest pr.1
    | some c => c :: charsFromStringGo color start_x rest pr.1

def chars_from_string (buffer : List Nat) (color start_x start_y : Nat) :
    List SysPrintableChar :=
  charsFromStringGo color start_x buffer (TextPosition.mk start_x start_y)

/-! ## The VGA buffer writer (`io/stdout/mod.rs`).
The buffer is a total map from byte index to byte value. -/

abbrev VBuf := Nat → Nat

def writeByte (buf : VBuf) (i v : Nat) : VBuf :=
  fun j => if j = i then v else buf j

def write_char_at (syschar : SysPrintableChar) (buf : VBuf) : VBuf :=
  if syschar.is_valid then
    let index := (syschar.y * VGA_WIDTH + syschar.x) * 2
    if index + 1 < VGA_BUFFER_SIZE then
      writeByte (writeByte buf index syschar.character) (index + 1) syschar.color
    else buf
  else buf

def write_buffer (vec : List SysPrintableChar) (buf : VBuf) : VBuf :=
  vec.foldl (fun b c => write_char_at c b) buf

def clear_screen (background_color : Nat) (buf : VBuf) : VBuf :=
  (List.range VGA_HEIGHT).foldl
    (fun b y =>
      (List.range VGA_WIDTH).foldl
        (fun b2 x => write_char_at (SysPrintableChar.new 32 background_color x y) b2) b)
    buf

def write_string_at (text : List Nat) (color x y : Nat) (buf : VBuf) : VBuf :=
  write_buffer (new_string text color x y) buf

/-! ## The reusable cursor (`TextCursor` in `io/stdout/mod.rs`).
`x` and `y` are `u8`; increments are modulo 256. -/

structure TextCursor where
  x : Nat
  y : Nat
  color : Nat
deriving DecidableEq, Repr

def TextCursor.new (x y color : Nat) : TextCursor :=
  { x := x, y := y, color := color }

def TextCursor.new_line (c : TextCursor) : TextCursor :=
  let y2 := (c.y + 1) % 256
  { c with x := 0, y := if VGA_HEIGHT ≤ y2 then VGA_HEIGHT - 1 else y2 }

def TextCursor.carriage_return (c : TextCursor) : TextCursor :=
  { c with x := 0 }

def TextCursor.advance (c : TextCursor) : TextCursor :=
  let x2 := (c.x + 1) % 256
  if VGA_WIDTH ≤ x2 then TextCursor.new_line { c with x := x2 } else { c with x := x2 }

def TextCursor.is_valid_position (c : TextCursor) : Bool :=
  c.x < VGA_WIDTH && c.y < VGA_HEIGHT

def TextCursor.write_char (c : TextCursor) (character : Nat) (buf : VBuf) :
    TextCursor × VBuf :=
  if c.is_valid_position then
    (c.advance, write_char_at (SysPrintableChar.new character c.color c.x c.y) buf)
  else (c, buf)

def TextCursor.write_string (c : TextCursor) (text : List Nat) (buf : VBuf) :
    TextCursor × VBuf :=
  text.foldl
    (fun cb b =>
      if b = 10 then (cb.1.new_line, cb.2)
      else if b = 13 then (cb.1.carriage_return, cb.2)
      else cb.1.write_char b cb.2)
    (c, buf)

def TextCursor.position (c : TextCursor) : Nat × Nat :=
  (c.x, c.y)

def TextCursor.set_color (c : TextCursor) (color : Nat) : TextCursor :=
  { c with color := color }

/-! ## The main loop's private cursor (`CursorPosition` in `main.rs`).
Its fields are `usize` (64-bit); plain `Nat` arithmetic models them, since
the increments below never approach the word size. -/

structure CursorPosition where
  x : Nat
  y : Nat
deriving DecidableEq, Repr

def CursorPosition.mtnlY (y : Nat) : Nat :=
  if 25 ≤ y + 1 then 24 else y + 1

def CursorPosition.move_to_next_line (c : CursorPosition) : CursorPosition :=
  { x := 0, y := CursorPosition.mtnlY c.y }

def CursorPosition.advance_cursor (c : CursorPosition) : CursorPosition :=
  if VGA_WIDTH ≤ c.x + 1 then CursorPosition.move_to_next_line { c with x := c.x + 1 }
  else { c with x := c.x + 1 }

def CursorPosition.is_within_bounds (c : CursorPosition) : Bool :=
  c.x < VGA_WIDTH && c.y < 25

/-- `char::is_control` restricted as in the main loop: it is only
consulted after `is_ascii`, where it means the Cc range `0x00..0x1F`
or `0x7F`. -/
def charIsControl (ch : Nat) : Bool :=
  ch < 0x20 || (0x7F ≤ ch && ch ≤ 0x9F)

def handle_character_input (character : Nat) (cursor : CursorPosition) (buf : VBuf) :
    CursorPosition × VBuf :=
  if character = 10 then (cursor.move_to_next_line, buf)
  else if character ≤ 127 && !charIsControl character then
    if cursor.is_within_bounds then
      (cursor.advance_cursor,
       write_char_at (SysPrintableChar.new character LIGHT_GRAY cursor.x cursor.y) buf)
    else (cursor, buf)
  else (cursor, buf)

/-! ## Keyboard driver (`io/stdin/keyboard.rs`).
The hardware ports are opaque inputs: the status byte and the data byte
currently latched by the controller are passed in explicitly. -/

def OUTPUT_BUFFER_FULL : Nat := 0x01

def is_output_ready (status : Nat) : Bool :=
  status &&& OUTPUT_BUFFER_FULL ≠ 0

def read_scancode (status data : Nat) : Option Nat :=
  if is_output_ready status then some data else none

/-- The `SCANCODE_MAP` table: 256 entries, all `None` except the coded
assignments, exactly as written in the `const` initializer. -/
def SCANCODE_MAP : List (Option Nat) :=
  List.replicate 256 (none : Option Nat)
    |>.set 0x02 (some 49) |>.set 0x03 (some 50) |>.set 0x04 (some 51)
    |>.set 0x05 (some 52) |>.set 0x06 (some 53) |>.set 0x07 (some 54)
    |>.set 0x08 (some 55) |>.set 0x09 (some 56) |>.set 0x0A (some 57)
    |>.set 0x0B (some 48)
    |>.set 0x10 (some 113) |>.set 0x11 (some 119) |>.set 0x12 (some 101)
    |>.set 0x13 (some 114) |>.set 0x14 (some 116) |>.set 0x15 (some 121)
    |>.set 0x16 (some 117) |>.set 0x17 (some 105) |>.set 0x18 (some 111)
    |>.set 0x19 (some 112)
    |>.set 0x1E (some 97) |>.set 0x1F (some 115) |>.set 0x20 (some 100)
    |>.set 0x21 (some 102) |>.set 0x22 (some 103) |>.set 0x23 (some 104)
    |>.set 0x24 (some 106) |>.set 0x25 (some 107) |>.set 0x26 (some 108)
    |>.set 0x2C (some 122) |>.set 0x2D (some 120) |>.set 0x2E (some 99)
    |>.set 0x2F (some 118) |>.set 0x30 (some 98) |>.set 0x31 (some 110)
    |>.set 0x32 (some 109)
    |>.set 0x39 (some 32) |>.set 0x1C (some 10)

def scancode_to_char (scancode : Nat) : Option Nat :=
  (SCANCODE_MAP.get? scancode).join

def poll_keyboard (status data : Nat) : Option Nat :=
  match read_scancode status data with
  | some scancode => if scancode &&& 0x80 = 0 then scancode_to_char scancode else none
  | none => none

/-! ## Helper lemmas -/

lemma vecPush_of_lt {l : List SysPrintableChar} {c : SysPrintableChar}
    (h : l.length < 2000) : vecPush l c = l ++ [c] := by
  simp [vecPush, h]

lemma vecPush_len (l : List SysPrintableChar) (c : SysPrintableChar) :
    l.length ≤ (vecPush l c).length := by
  unfold vecPush
  split <;> simp

lemma tabLoop_len (color : Nat) :
    ∀ (n : Nat) (p : TextPosition) (acc : List SysPrintableChar),
      acc.length ≤ (tabLoop color n p acc).2.length
  | 0, _, _ => le_refl _
  | n + 1, p, acc => by
    rw [tabLoop]
    split
    · exact le_refl _
    · exact le_trans (vecPush_len acc _) (tabLoop_len color n _ _)

lemma newStringGo_len (color sx : Nat) :
    ∀ (buf : List Nat) (p : TextPosition) (acc : List SysPrintableChar),
      acc.length ≤ (newStringGo color sx buf p acc).length := by
  intro buf
  induction buf with
  | nil => intro p acc; exact le_refl _
  | cons b rest ih =>
    intro p acc
    rw [newStringGo]
    dsimp only
    split
    · exact le_refl _
    split
    · exact ih _ _
    split
    · exact ih _ _
    split
    · exact le_trans (tabLoop_len color 4 p acc) (ih _ _)
    split
    · split
      · split
        · exact le_refl _
        · exact le_trans (vecPush_len acc _) (ih _ _)
      · exact le_trans (vecPush_len acc _) (ih _ _)
    · exact ih _ _

lemma charsFromStringGo_oob (color sx : Nat) :
    ∀ (buf : List Nat) (p : TextPosition), p.is_out_of_bounds = true →
      charsFromStringGo color sx buf p = [] := by
  intro buf
  induction buf with
  | nil => intro p _; rfl
  | cons b rest ih =>
    intro p h
    have hls : lazyStep color sx p b = (p, none) := by
      rw [lazyStep, if_pos h]
    rw [charsFromStringGo, hls]
    exact ih p h

/-- The heart of the eager/lazy comparison: on tab-free input, as long as
the eager loop never truncates, both loops produce the same records. -/
lemma eager_lazy_go (color sx : Nat) :
    ∀ (buf : List Nat) (p : TextPosition) (acc : List SysPrintableChar),
      (∀ b ∈ buf, b ≠ 9) →
      (newStringGo color sx buf p acc).length < 2000 →
      newStringGo color sx buf p acc = acc ++ charsFromStringGo color sx buf p := by
  intro buf
  induction buf with
  | nil => intro p acc _ _; simp [newStringGo, charsFromStringGo]
  | cons b rest ih =>
    intro p acc hnt hcap
    have hnt9 : b ≠ 9 := hnt b (List.mem_cons_self b rest)
    have hntr : ∀ x ∈ rest, x ≠ 9 := fun x hx => hnt x (List.mem_cons_of_mem b hx)
    by_cases hoob : p.is_out_of_bounds
    · rw [charsFromStringGo_oob color sx (b :: rest) p hoob]
      rw [newStringGo, if_pos (Or.inl hoob)]
      simp
    · have hoob' : p.is_out_of_bounds = false := by simpa using hoob
      by_cases hfull : 2000 ≤ acc.length
      · exfalso
        rw [newStringGo, if_pos (Or.inr hfull)] at hcap
        omega
      · have hlt : acc.length < 2000 := by omega
        have hcond : ¬ (p.is_out_of_bounds = true ∨ 2000 ≤ acc.length) := by
          simp [hoob', hfull]
        by_cases hb10 : b = 10
        · subst hb10
          have heag : newStringGo color sx (10 :: rest) p acc
              = newStringGo color sx rest (p.new_line sx) acc := by
            rw [newStringGo, if_neg hcond, if_pos rfl]
          have hls : lazyStep color sx p 10 = (p.new_line sx, none) := by
            rw [lazyStep, if_neg (by simp [hoob']), if_pos rfl]
          have hlazy : charsFromStringGo color sx (10 :: rest) p
              = charsFromStringGo color sx rest (p.new_line sx) := by
            rw [charsFromStringGo, hls]
          rw [heag] at hcap ⊢
          rw [hlazy]
          exact ih _ _ hntr hcap
        · by_cases hb13 : b = 13
          · subst hb13
            have heag : newStringGo color sx (13 :: rest) p acc
                = newStringGo color sx rest (p.carriage_return sx) acc := by
              rw [newStringGo, if_neg hcond, if_neg (by decide), if_pos rfl]
            have hls : lazyStep color sx p 13 = (p.carriage_return sx, none) := by
              rw [lazyStep, if_neg (by simp [hoob']), if_neg (by decide), if_pos rfl]
            have hlazy : charsFromStringGo color sx (13 :: rest) p
                = charsFromStringGo color sx rest (p.carriage_return sx) := by
              rw [charsFromStringGo, hls]
            rw [heag] at hcap ⊢
            rw [hlazy]
            exact ih _ _ hntr hcap
          · by_cases hpr : isAsciiGraphic b = true ∨ b = 32
            · by_cases hx : VGA_WIDTH ≤ p.x
              · by_cases hw : (p.new_line sx).is_out_of_bounds
                · have heag : newStringGo color sx (b :: rest) p acc = acc := by
                    rw [newStringGo, if_neg hcond, if_neg hb10, if_neg hb13,
                        if_neg hnt9, if_pos hpr]
                    dsimp only
                    rw [if_pos hx, if_pos hw]
                  have hls : lazyStep color sx p b = (p.new_line sx, none) := by
                    rw [lazyStep, if_neg (by simp [hoob']), if_neg hb10, if_neg hb13,
                        if_pos hpr]
                    dsimp only
                    rw [if_pos hx, if_pos hw]
                  have hlazy : charsFromStringGo color sx (b :: rest) p
                      = charsFromStringGo color sx rest (p.new_line sx) := by
                    rw [charsFromStringGo, hls]
                  rw [heag, hlazy, charsFromStringGo_oob color sx rest _ hw]
                  simp
                · have heag : newStringGo color sx (b :: rest) p acc
                      = newStringGo color sx rest (p.new_line sx).advance
                          (acc ++ [SysPrintableChar.new b color (p.new_line sx).x
                            (p.new_line sx).y]) := by
                    rw [newStringGo, if_neg hcond, if_neg hb10, if_neg hb13,
                        if_neg hnt9, if_pos hpr]
                    dsimp only
                    rw [if_pos hx, if_neg hw, vecPush_of_lt hlt]
                  have hls : lazyStep color sx p b
                      = ((p.new_line sx).advance,
                         some (SysPrintableChar.new b color (p.new_line sx).x
                           (p.new_line sx).y)) := by
                    rw [lazyStep, if_neg (by simp [hoob']), if_neg hb10, if_neg hb13,
                        if_pos hpr]
                    dsimp only
                    rw [if_pos hx, if_neg hw]
                  have hlazy : charsFromStringGo color sx (b :: rest) p
                      = SysPrintableChar.new b color (p.new_line sx).x (p.new_line sx).y
                        :: charsFromStringGo color sx rest (p.new_line sx).advance := by
                    rw [charsFromStringGo, hls]
                  rw [heag] at hcap ⊢
                  rw [hlazy, ih _ _ hntr hcap]
                  simp
              · have heag : newStringGo color sx (b :: rest) p acc
                    = newStringGo color sx rest p.advance
                        (acc ++ [SysPrintableChar.new b color p.x p.y]) := by
                  rw [newStringGo, if_neg hcond, if_neg hb10, if_neg hb13,
                      if_neg hnt9, if_pos hpr]
                  dsimp only
                  rw [if_neg hx, vecPush_of_lt hlt]
                have hls : lazyStep color sx p b
                    = (p.advance, some (SysPrintableChar.new b color p.x p.y)) := by
                  rw [lazyStep, if_neg (by simp [hoob']), if_neg hb10, if_neg hb13,
                      if_pos hpr]
                  dsimp only
                  rw [if_neg hx]
                have hlazy : charsFromStringGo color sx (b :: rest) p
                    = SysPrintableChar.new b color p.x p.y
                      :: charsFromStringGo color sx rest p.advance := by
                  rw [charsFromStringGo, hls]
                rw [heag] at hcap ⊢
                rw [hlazy, ih _ _ hntr hcap]
                simp
            · have heag : newStringGo color sx (b :: rest) p acc
                  = newStringGo color sx rest p acc := by
                rw [newStringGo, if_neg hcond, if_neg hb10, if_neg hb13,
                    if_neg hnt9, if_neg hpr]
              have hls : lazyStep color sx p b = (p, none) := by
                rw [lazyStep, if_neg (by simp [hoob']), if_neg hb10, if_neg hb13,
                    if_neg hpr]
              have hlazy : charsFromStringGo color sx (b :: rest) p
                  = charsFromStringGo color sx rest p := by
                rw [charsFromStringGo, hls]
              rw [heag] at hcap ⊢
              rw [hlazy]
              exact ih _ _ hntr hcap

lemma vecPush_mem {l : List SysPrintableChar} {c r : SysPrintableChar}
    (h : r ∈ vecPush l c) : r ∈ l ∨ r = c := by
  unfold vecPush at h
  split at h
  · rcases List.mem_append.mp h with h1 | h1
    · exact Or.inl h1
    · exact Or.inr (List.mem_singleton.mp h1)
  · exact Or.inl h

lemma is_out_of_bounds_false_iff (p : TextPosition) :
    p.is_out_of_bounds = false ↔ p.y < 25 := by
  simp [TextPosition.is_out_of_bounds, VGA_HEIGHT]

lemma tabLoop_y_lt (color : Nat) :
    ∀ (n : Nat) (p : TextPosition) (acc : List SysPrintableChar),
      (∀ r ∈ acc, r.y < 25) →
      ∀ r ∈ (tabLoop color n p acc).2, r.y < 25
  | 0, _, _, h => h
  | n + 1, p, acc, h => by
    rw [tabLoop]
    split
    · exact h
    next hcond =>
      apply tabLoop_y_lt color n
      intro r hr
      rcases vecPush_mem hr with h1 | h1
      · exact h r h1
      · subst h1
        have hp : p.is_out_of_bounds = false := by
          rcases Bool.eq_false_or_eq_true p.is_out_of_bounds with h0 | h0
          · exact absurd (Or.inl h0) hcond
          · exact h0
        simpa [SysPrintableChar.new] using (is_out_of_bounds_false_iff p).mp hp

lemma newStringGo_y_lt (color sx : Nat) :
    ∀ (buf : List Nat) (p : TextPosition) (acc : List SysPrintableChar),
      (∀ r ∈ acc, r.y < 25) →
      ∀ r ∈ newStringGo color sx buf p acc, r.y < 25 := by
  intro buf
  induction buf with
  | nil => intro p acc h; exact h
  | cons b rest ih =>
    intro p acc h
    rw [newStringGo]
    dsimp only
    split
    · exact h
    next hcond =>
    have hy : p.y < 25 := by
      have hp : p.is_out_of_bounds = false := by
        rcases Bool.eq_false_or_eq_true p.is_out_of_bounds with h0 | h0
        · exact absurd (Or.inl h0) hcond
        · exact h0
      exact (is_out_of_bounds_false_iff p).mp hp
    split
    · exact ih _ _ h
    split
    · exact ih _ _ h
    split
    · exact ih _ _ (tabLoop_y_lt color 4 p acc h)
    split
    · split
      · split
        · exact h
        next hw =>
          apply ih
          intro r hr
          rcases vecPush_mem hr with h1 | h1
          · exact h r h1
          · subst h1
            have hp2 : (p.new_line sx).is_out_of_bounds = false := by
              rcases Bool.eq_false_or_eq_true (p.new_line sx).is_out_of_bounds with h0 | h0
              · exact absurd h0 hw
              · exact h0
            simpa [SysPrintableChar.new] using (is_out_of_bounds_false_iff _).mp hp2
      · apply ih
        intro r hr
        rcases vecPush_mem hr with h1 | h1
        · exact h r h1
        · subst h1
          simpa [SysPrintableChar.new] using hy
    · exact ih _ _ h

/-! ## Claim theorems -/

/-- Claim C1 (amended): for every tab-free input byte sequence, color and
starting position for which the eager conversion does not hit the
2000-record capacity limit, the lazy conversion (`chars_from_string`)
yields exactly the same records, in the same order, as the eager
conversion (`new_string`). -/
theorem chars_from_string_eq_new_string (buffer : List Nat) (color start_x start_y : Nat)
    (htab : ∀ b ∈ buffer, b ≠ 9)
    (hcap : (new_string buffer color start_x start_y).length < 2000) :
    chars_from_string buffer color start_x start_y
      = new_string buffer color start_x start_y := by
  unfold new_string at hcap ⊢
  unfold chars_from_string
  rw [eager_lazy_go color start_x buffer _ [] htab hcap]
  simp

/-- Witness for C1: a concrete tab-free input on which both conversions
agree. -/
theorem chars_from_string_eq_new_string_witness :
    chars_from_string [97, 98, 10, 99] 7 2 0 = new_string [97, 98, 10, 99] 7 2 0 :=
  chars_from_string_eq_new_string [97, 98, 10, 99] 7 2 0 (by decide) (by decide)

/-- Counterexample to claim C1 as stated: on the single tab byte the eager
conversion emits four space records while the lazy conversion emits none,
although the capacity limit is far from being reached. -/
theorem chars_from_string_ne_new_string_on_tab :
    (new_string [9] 7 0 0).length < 2000 ∧
    chars_from_string [9] 7 0 0 ≠ new_string [9] 7 0 0 := by
  decide

/-- Claim C2 (amended): every record the eager conversion emits satisfies
`y < 25`; the mid-tab check stops the tab expansion as soon as the row
bound or the capacity is hit (it does not test the column); and
converting the single byte tab starting at column 0 of row 0 yields
exactly 4 space records at columns 0, 1, 2, 3 of row 0. -/
theorem tab_records (buf : List Nat) (color sx sy : Nat) :
    (∀ r ∈ new_string buf color sx sy, r.y < 25) ∧
    (∀ (n : Nat) (p : TextPosition) (acc : List SysPrintableChar),
       p.is_out_of_bounds = true ∨ 2000 ≤ acc.length → tabLoop color n p acc = (p, acc)) ∧
    new_string [9] color 0 0 =
      [SysPrintableChar.new 32 color 0 0, SysPrintableChar.new 32 color 1 0,
       SysPrintableChar.new 32 color 2 0, SysPrintableChar.new 32 color 3 0] := by
  refine ⟨fun r hr => newStringGo_y_lt color sx buf _ [] (by simp) r hr, ?_, rfl⟩
  intro n p acc hc
  cases n with
  | zero => rfl
  | succ m => rw [tabLoop, if_pos hc]

/-- Witness for C2 (amended), at concrete inputs. -/
theorem tab_records_witness :
    (SysPrintableChar.new 32 7 80 0).y < 25 ∧
    tabLoop 7 4 (TextPosition.mk 0 25) [] = (TextPosition.mk 0 25, []) ∧
    new_string [9] 7 0 0 =
      [SysPrintableChar.new 32 7 0 0, SysPrintableChar.new 32 7 1 0,
       SysPrintableChar.new 32 7 2 0, SysPrintableChar.new 32 7 3 0] :=
  ⟨(tab_records [9] 7 78 0).1 (SysPrintableChar.new 32 7 80 0) (by decide),
   (tab_records [9] 7 78 0).2.1 4 (TextPosition.mk 0 25) [] (Or.inl (by decide)),
   (tab_records [9] 7 78 0).2.2⟩

/-- Counterexample to claim C2 as stated: a tab starting at the in-bounds
position (78, 0) emits space records at columns 80 and 81, because the
mid-tab check only tests the row bound. -/
theorem tab_record_past_right_edge :
    ∃ r ∈ new_string [9] 7 78 0, ¬ (r.x < 80 ∧ r.y < 25) := by
  decide

/-- Claim C5: in eager conversion a newline byte advances the row by one
and resets the column to the sequence's starting column without emitting
a record; a carriage-return byte resets the column to the starting column
on the same row without emitting a record; and converting "ab\r\ncd"
starting at (2,0) yields exactly a@(2,0), b@(3,0), c@(2,1), d@(3,1). -/
theorem newline_carriage_return_behavior (color sx : Nat) (rest : List Nat)
    (p : TextPosition) (acc : List SysPrintableChar)
    (hy : p.y < 25) (hlen : acc.length < 2000) :
    (newStringGo color sx (10 :: rest) p acc
      = newStringGo color sx rest (TextPosition.mk sx (p.y + 1)) acc) ∧
    (newStringGo color sx (13 :: rest) p acc
      = newStringGo color sx rest (TextPosition.mk sx p.y) acc) ∧
    new_string [97, 98, 13, 10, 99, 100] color 2 0
      = [SysPrintableChar.new 97 color 2 0, SysPrintableChar.new 98 color 3 0,
         SysPrintableChar.new 99 color 2 1, SysPrintableChar.new 100 color 3 1] := by
  have h1 : p.is_out_of_bounds = false := by
    rw [is_out_of_bounds_false_iff]
    exact hy
  have hoob : ¬ (p.is_out_of_bounds = true ∨ 2000 ≤ acc.length) := by
    simp [h1]
    omega
  refine ⟨?_, ?_, rfl⟩
  · rw [newStringGo, if_neg hoob, if_pos rfl]
    have hnl : p.new_line sx = TextPosition.mk sx (p.y + 1) := by
      unfold TextPosition.new_line
      simp [Nat.mod_eq_of_lt (show p.y + 1 < 256 by omega)]
    rw [hnl]
  · rw [newStringGo, if_neg hoob, if_neg (by decide), if_pos rfl]
    rfl

/-- Witness for C5, at a concrete in-bounds state. -/
theorem newline_carriage_return_behavior_witness :
    (newStringGo 7 2 [10] (TextPosition.mk 5 3) []
      = newStringGo 7 2 [] (TextPosition.mk 2 4) []) ∧
    (newStringGo 7 2 [13] (TextPosition.mk 5 3) []
      = newStringGo 7 2 [] (TextPosition.mk 2 3) []) ∧
    new_string [97, 98, 13, 10, 99, 100] 7 2 0
      = [SysPrintableChar.new 97 7 2 0, SysPrintableChar.new 98 7 3 0,
         SysPrintableChar.new 99 7 2 1, SysPrintableChar.new 100 7 3 1] :=
  newline_carriage_return_behavior 7 2 [] (TextPosition.mk 5 3) [] (by decide) (by decide)

/-- Claim C6: when the current column has reached the display width, a
printable byte first wraps to the starting column of the next row, then
emits its record at the wrapped position; consequently a string of 81
printable characters starting at column 0 of row 0 puts its 81st record
at column 0 of row 1 (not at column 80 of row 0). -/
theorem wrap_before_emit (color sx b : Nat) (rest : List Nat) (p : TextPosition)
    (acc : List SysPrintableChar)
    (hx : VGA_WIDTH ≤ p.x) (hy : p.y < 25) (hy2 : p.y + 1 < 25)
    (hlen : acc.length < 2000) (hb : isAsciiGraphic b = true) :
    (newStringGo color sx (b :: rest) p acc
      = newStringGo color sx rest (TextPosition.mk ((sx + 1) % 256) (p.y + 1))
          (acc ++ [SysPrintableChar.new b color sx (p.y + 1)])) ∧
    (new_string (List.replicate 81 97) 7 0 0).get? 80
      = some (SysPrintableChar.new 97 7 0 1) ∧
    (new_string (List.replicate 81 97) 7 0 0).length = 81 := by
  have hb' : 33 ≤ b ∧ b ≤ 126 := by simpa [isAsciiGraphic] using hb
  have h1 : p.is_out_of_bounds = false := by
    rw [is_out_of_bounds_false_iff]
    exact hy
  have hoob : ¬ (p.is_out_of_bounds = true ∨ 2000 ≤ acc.length) := by
    simp [h1]
    omega
  have hnl : p.new_line sx = TextPosition.mk sx (p.y + 1) := by
    unfold TextPosition.new_line
    simp [Nat.mod_eq_of_lt (show p.y + 1 < 256 by omega)]
  have hw : ¬ ((TextPosition.mk sx (p.y + 1)).is_out_of_bounds = true) := by
    simp [TextPosition.is_out_of_bounds, VGA_HEIGHT]
    omega
  refine ⟨?_, by decide, by decide⟩
  rw [newStringGo, if_neg hoob, if_neg (by omega : ¬ b = 10),
      if_neg (by omega : ¬ b = 13), if_neg (by omega : ¬ b = 9),
      if_pos (Or.inl hb)]
  dsimp only
  rw [hnl, if_pos hx, if_neg hw, vecPush_of_lt hlen]
  rfl

/-- Witness for C6, at a concrete state with the column at the width. -/
theorem wrap_before_emit_witness :
    (newStringGo 7 0 [97] (TextPosition.mk 80 0) []
      = newStringGo 7 0 [] (TextPosition.mk 1 1) [SysPrintableChar.new 97 7 0 1]) ∧
    (new_string (List.replicate 81 97) 7 0 0).get? 80
      = some (SysPrintableChar.new 97 7 0 1) ∧
    (new_string (List.replicate 81 97) 7 0 0).length = 81 :=
  wrap_before_emit 7 0 97 [] (TextPosition.mk 80 0) [] (by decide) (by decide)
    (by decide) (by decide) (by decide)

/-- Claim C7: a printable character record is valid iff `x < 80` and
`y < 25`, and `write_char_at` applied to an invalid record leaves the
whole display buffer unchanged. -/
theorem is_valid_characterization (s : SysPrintableChar) (buf : VBuf) :
    (s.is_valid = true ↔ (s.x < 80 ∧ s.y < 25)) ∧
    (s.is_valid = false → write_char_at s buf = buf) := by
  constructor
  · simp [SysPrintableChar.is_valid, VGA_WIDTH, VGA_HEIGHT]
  · intro h
    rw [write_char_at, if_neg (by simp [h])]

/-- Witness for C7 at a concrete invalid record (x = 80). -/
theorem is_valid_characterization_witness :
    (SysPrintableChar.new 65 7 80 0).is_valid = false ∧
    write_char_at (SysPrintableChar.new 65 7 80 0) (fun _ => 0) = (fun _ => 0) :=
  ⟨by decide,
   (is_valid_characterization (SysPrintableChar.new 65 7 80 0) (fun _ => 0)).2 (by decide)⟩

/-- Claim C8: for every valid record the index `(y*80 + x)*2` computed by
`write_char_at` satisfies `index + 1 < 4000`, so the redundant bounds
check never fails and both the character byte and the color byte are
written. -/
theorem write_char_at_in_bounds (s : SysPrintableChar) (buf : VBuf)
    (hx : s.x < 80) (hy : s.y < 25) :
    ((s.y * VGA_WIDTH + s.x) * 2 + 1 < VGA_BUFFER_SIZE) ∧
    write_char_at s buf ((s.y * VGA_WIDTH + s.x) * 2) = s.character ∧
    write_char_at s buf ((s.y * VGA_WIDTH + s.x) * 2 + 1) = s.color := by
  have hidx : (s.y * VGA_WIDTH + s.x) * 2 + 1 < VGA_BUFFER_SIZE := by
    simp only [VGA_WIDTH, VGA_BUFFER_SIZE, VGA_HEIGHT]
    omega
  have hv : s.is_valid = true := by
    simp only [SysPrintableChar.is_valid, VGA_WIDTH, VGA_HEIGHT]
    simp
    omega
  refine ⟨hidx, ?_, ?_⟩
  · rw [write_char_at, if_pos hv]
    rw [if_pos hidx]
    simp [writeByte]
  · rw [write_char_at, if_pos hv]
    rw [if_pos hidx]
    simp [writeByte]

/-- Witness for C8 at the last valid cell (79, 24). -/
theorem write_char_at_in_bounds_witness :
    ((24 * VGA_WIDTH + 79) * 2 + 1 < VGA_BUFFER_SIZE) ∧
    write_char_at (SysPrintableChar.new 65 7 79 24) (fun _ => 0)
      ((24 * VGA_WIDTH + 79) * 2) = 65 ∧
    write_char_at (SysPrintableChar.new 65 7 79 24) (fun _ => 0)
      ((24 * VGA_WIDTH + 79) * 2 + 1) = 7 :=
  write_char_at_in_bounds (SysPrintableChar.new 65 7 79 24) (fun _ => 0)
    (by decide) (by decide)

/-! ## clear_screen characterization (for claim C3) -/

lemma write_char_at_new_get (ch col x y : Nat) (buf : VBuf) (j : Nat)
    (hx : x < 80) (hy : y < 25) :
    write_char_at (SysPrintableChar.new ch col x y) buf j =
      if j = (y * 80 + x) * 2 + 1 then col
      else if j = (y * 80 + x) * 2 then ch
      else buf j := by
  have hidx : (y * 80 + x) * 2 + 1 < 4000 := by omega
  have hv : (SysPrintableChar.new ch col x y).is_valid = true := by
    simp [SysPrintableChar.is_valid, SysPrintableChar.new, VGA_WIDTH, VGA_HEIGHT]
    omega
  rw [write_char_at, if_pos hv]
  rw [if_pos (show ((SysPrintableChar.new ch col x y).y * VGA_WIDTH
      + (SysPrintableChar.new ch col x y).x) * 2 + 1 < VGA_BUFFER_SIZE by
    simpa [SysPrintableChar.new, VGA_WIDTH, VGA_BUFFER_SIZE, VGA_HEIGHT] using hidx)]
  simp only [writeByte, SysPrintableChar.new, VGA_WIDTH]

lemma write_char_at_new_frame (ch col x y : Nat) (buf : VBuf) (j : Nat)
    (h0 : j ≠ (y * 80 + x) * 2) (h1 : j ≠ (y * 80 + x) * 2 + 1) :
    write_char_at (SysPrintableChar.new ch col x y) buf j = buf j := by
  by_cases hv : (SysPrintableChar.new ch col x y).is_valid = true
  · rw [write_char_at, if_pos hv]
    by_cases hb : ((SysPrintableChar.new ch col x y).y * VGA_WIDTH
        + (SysPrintableChar.new ch col x y).x) * 2 + 1 < VGA_BUFFER_SIZE
    · rw [if_pos hb]
      simp only [writeByte, SysPrintableChar.new, VGA_WIDTH]
      rw [if_neg ?_, if_neg ?_]
      · exact h0
      · exact h1
    · rw [if_neg hb]
  · rw [write_char_at, if_neg hv]

lemma rowFold_frame (bgc y : Nat) :
    ∀ (n : Nat) (buf : VBuf) (j : Nat),
      (∀ x, x < n → j ≠ (y * 80 + x) * 2 ∧ j ≠ (y * 80 + x) * 2 + 1) →
      ((List.range n).foldl
        (fun b2 x => write_char_at (SysPrintableChar.new 32 bgc x y) b2) buf) j = buf j := by
  intro n
  induction n with
  | zero => intro buf j _; rfl
  | succ m ih =>
    intro buf j hj
    rw [List.range_succ, List.foldl_append, List.foldl_cons, List.foldl_nil]
    have hm := hj m (Nat.lt_succ_self m)
    rw [write_char_at_new_frame 32 bgc m y _ j hm.1 hm.2]
    exact ih buf j (fun x hx => hj x (Nat.lt_succ_of_lt hx))

lemma rowFold_get (bgc y : Nat) :
    ∀ (n : Nat) (buf : VBuf) (x : Nat), x < n → n ≤ 80 → y < 25 →
      ((List.range n).foldl
        (fun b2 x2 => write_char_at (SysPrintableChar.new 32 bgc x2 y) b2) buf)
          ((y * 80 + x) * 2) = 32 ∧
      ((List.range n).foldl
        (fun b2 x2 => write_char_at (SysPrintableChar.new 32 bgc x2 y) b2) buf)
          ((y * 80 + x) * 2 + 1) = bgc := by
  intro n
  induction n with
  | zero => intro buf x hx _ _; exact absurd hx (Nat.not_lt_zero x)
  | succ m ih =>
    intro buf x hx hn hy
    rw [List.range_succ, List.foldl_append, List.foldl_cons, List.foldl_nil]
    by_cases hxm : x = m
    · subst hxm
      rw [write_char_at_new_get 32 bgc x y _ _ (by omega) hy,
          write_char_at_new_get 32 bgc x y _ _ (by omega) hy]
      rw [if_neg (by omega), if_pos rfl, if_pos rfl]
      exact ⟨rfl, rfl⟩
    · have hd : (y * 80 + x) * 2 ≠ (y * 80 + m) * 2 ∧
          (y * 80 + x) * 2 ≠ (y * 80 + m) * 2 + 1 ∧
          (y * 80 + x) * 2 + 1 ≠ (y * 80 + m) * 2 ∧
          (y * 80 + x) * 2 + 1 ≠ (y * 80 + m) * 2 + 1 := by
        omega
      rw [write_char_at_new_frame 32 bgc m y _ _ hd.1 hd.2.1,
          write_char_at_new_frame 32 bgc m y _ _ hd.2.2.1 hd.2.2.2]
      exact ih buf x (by omega) (by omega) hy

lemma clearFold_get (bgc : Nat) :
    ∀ (k : Nat) (buf : VBuf) (x y : Nat), x < 80 → y < k → k ≤ 25 →
      ((List.range k).foldl
        (fun b y2 => (List.range VGA_WIDTH).foldl
          (fun b2 x2 => write_char_at (SysPrintableChar.new 32 bgc x2 y2) b2) b) buf)
        ((y * 80 + x) * 2) = 32 ∧
      ((List.range k).foldl
        (fun b y2 => (List.range VGA_WIDTH).foldl
          (fun b2 x2 => write_char_at (SysPrintableChar.new 32 bgc x2 y2) b2) b) buf)
        ((y * 80 + x) * 2 + 1) = bgc := by
  intro k
  induction k with
  | zero => intro buf x y _ hy _; exact absurd hy (Nat.not_lt_zero y)
  | succ m ih =>
    intro buf x y hx hy hk
    rw [List.range_succ, List.foldl_append, List.foldl_cons, List.foldl_nil]
    by_cases hym : y = m
    · subst hym
      exact rowFold_get bgc y VGA_WIDTH _ x (by simpa [VGA_WIDTH] using hx)
        (by simp [VGA_WIDTH]) (by omega)
    · have hframe : ∀ x2, x2 < VGA_WIDTH →
          (y * 80 + x) * 2 ≠ (m * 80 + x2) * 2 ∧
          (y * 80 + x) * 2 ≠ (m * 80 + x2) * 2 + 1 := by
        intro x2 hx2
        simp only [VGA_WIDTH] at hx2
        omega
      have hframe2 : ∀ x2, x2 < VGA_WIDTH →
          (y * 80 + x) * 2 + 1 ≠ (m * 80 + x2) * 2 ∧
          (y * 80 + x) * 2 + 1 ≠ (m * 80 + x2) * 2 + 1 := by
        intro x2 hx2
        simp only [VGA_WIDTH] at hx2
        omega
      rw [rowFold_frame bgc m VGA_WIDTH _ _ hframe,
          rowFold_frame bgc m VGA_WIDTH _ _ hframe2]
      exact ih buf x y hx (by omega) (by omega)

lemma clear_screen_get (bgc : Nat) (buf : VBuf) (x y : Nat)
    (hx : x < 80) (hy : y < 25) :
    clear_screen bgc buf ((y * 80 + x) * 2) = 32 ∧
    clear_screen bgc buf ((y * 80 + x) * 2 + 1) = bgc := by
  unfold clear_screen
  exact clearFold_get bgc VGA_HEIGHT buf x y hx (by simpa [VGA_HEIGHT] using hy)
    (by simp [VGA_HEIGHT])

/-- Claim C3 (amended): `clear_screen` uses its argument as the entire
color byte of every cell: after `clear_screen c` each of the 2000 cells
(80 wide, 25 high) holds the space glyph with color byte exactly `c`; for
a bare background value `b ≤ 15` this means the background nibble of
every cell is 0 (black) and the foreground nibble is `b`; obtaining
background `b` requires passing `make_color 0 b` instead. -/
theorem clear_screen_cells (background_color : Nat) (buf : VBuf) (x y : Nat)
    (hx : x < 80) (hy : y < 25) :
    clear_screen background_color buf ((y * 80 + x) * 2) = 32 ∧
    clear_screen background_color buf ((y * 80 + x) * 2 + 1) = background_color ∧
    (background_color ≤ 15 →
      get_background (clear_screen background_color buf ((y * 80 + x) * 2 + 1)) = 0 ∧
      get_foreground (clear_screen background_color buf ((y * 80 + x) * 2 + 1))
        = background_color) := by
  have h := clear_screen_get background_color buf x y hx hy
  refine ⟨h.1, h.2, fun hb => ?_⟩
  rw [h.2]
  constructor
  · interval_cases background_color <;> rfl
  · interval_cases background_color <;> rfl

/-- Witness for C3 (amended) at cell (0, 0) with color byte 4. -/
theorem clear_screen_cells_witness :
    clear_screen 4 (fun _ => 0) ((0 * 80 + 0) * 2) = 32 ∧
    clear_screen 4 (fun _ => 0) ((0 * 80 + 0) * 2 + 1) = 4 ∧
    ((4 : Nat) ≤ 15 →
      get_background (clear_screen 4 (fun _ => 0) ((0 * 80 + 0) * 2 + 1)) = 0 ∧
      get_foreground (clear_screen 4 (fun _ => 0) ((0 * 80 + 0) * 2 + 1)) = 4) :=
  clear_screen_cells 4 (fun _ => 0) 0 0 (by decide) (by decide)

/-- Counterexample to claim C3 as stated: after `clear_screen 4` (RED as
a bare background value) the color byte of cell (0,0) has background
nibble 0, not 4, and foreground nibble 4, not black. -/
theorem clear_screen_background_nibble_mismatch :
    ¬ (get_background (clear_screen 4 (fun _ => 0) ((0 * 80 + 0) * 2 + 1)) = 4 ∧
       get_foreground (clear_screen 4 (fun _ => 0) ((0 * 80 + 0) * 2 + 1)) = 0) := by
  have h := (clear_screen_get 4 (fun _ => 0) 0 0 (by decide) (by decide)).2
  rw [h]
  decide

/-! ## Cursor bound preservation (for claims C4 and C10) -/

lemma TextCursor_new_line_bounds (c : TextCursor) :
    c.new_line.x = 0 ∧ c.new_line.y < 25 := by
  unfold TextCursor.new_line
  dsimp only
  refine ⟨rfl, ?_⟩
  simp only [VGA_HEIGHT]
  split <;> omega

lemma TextCursor_advance_bounds (c : TextCursor) (hy : c.y < 25) :
    c.advance.x < 80 ∧ c.advance.y < 25 := by
  unfold TextCursor.advance
  dsimp only
  split
  · have h := TextCursor_new_line_bounds { c with x := (c.x + 1) % 256 }
    exact ⟨by rw [h.1]; omega, h.2⟩
  · next h =>
    simp only [VGA_WIDTH] at h
    refine ⟨?_, hy⟩
    show (c.x + 1) % 256 < 80
    omega

lemma TextCursor_write_char_bounds (c : TextCursor) (b : Nat) (buf : VBuf)
    (hx : c.x < 80) (hy : c.y < 25) :
    (c.write_char b buf).1.x < 80 ∧ (c.write_char b buf).1.y < 25 := by
  unfold TextCursor.write_char
  split
  · exact TextCursor_advance_bounds c hy
  · exact ⟨hx, hy⟩

lemma writeStringFold_bounds (text : List Nat) :
    ∀ (cb : TextCursor × VBuf), cb.1.x < 80 → cb.1.y < 25 →
      (text.foldl
        (fun cb2 b =>
          if b = 10 then (cb2.1.new_line, cb2.2)
          else if b = 13 then (cb2.1.carriage_return, cb2.2)
          else cb2.1.write_char b cb2.2) cb).1.x < 80 ∧
      (text.foldl
        (fun cb2 b =>
          if b = 10 then (cb2.1.new_line, cb2.2)
          else if b = 13 then (cb2.1.carriage_return, cb2.2)
          else cb2.1.write_char b cb2.2) cb).1.y < 25 := by
  induction text with
  | nil => intro cb hx hy; exact ⟨hx, hy⟩
  | cons b rest ih =>
    intro cb hx hy
    rw [List.foldl_cons]
    have hstep :
        (if b = 10 then (cb.1.new_line, cb.2)
         else if b = 13 then (cb.1.carriage_return, cb.2)
         else cb.1.write_char b cb.2).1.x < 80 ∧
        (if b = 10 then (cb.1.new_line, cb.2)
         else if b = 13 then (cb.1.carriage_return, cb.2)
         else cb.1.write_char b cb.2).1.y < 25 := by
      by_cases hb10 : b = 10
      · rw [if_pos hb10]
        have h := TextCursor_new_line_bounds cb.1
        exact ⟨by rw [h.1]; omega, h.2⟩
      · rw [if_neg hb10]
        by_cases hb13 : b = 13
        · rw [if_pos hb13]
          exact ⟨by show (0 : Nat) < 80; omega, hy⟩
        · rw [if_neg hb13]
          exact TextCursor_write_char_bounds cb.1 b cb.2 hx hy
    exact ih _ hstep.1 hstep.2

lemma TextCursor_write_string_bounds (c : TextCursor) (text : List Nat) (buf : VBuf)
    (hx : c.x < 80) (hy : c.y < 25) :
    (c.write_string text buf).1.x < 80 ∧ (c.write_string text buf).1.y < 25 := by
  unfold TextCursor.write_string
  exact writeStringFold_bounds text (c, buf) hx hy

lemma move_to_next_line_bounds (c : CursorPosition) :
    c.move_to_next_line.x = 0 ∧ c.move_to_next_line.y < 25 := by
  unfold CursorPosition.move_to_next_line CursorPosition.mtnlY
  dsimp only
  refine ⟨rfl, ?_⟩
  split <;> omega

lemma advance_cursor_bounds (c : CursorPosition) (hy : c.y < 25) :
    c.advance_cursor.x < 80 ∧ c.advance_cursor.y < 25 := by
  unfold CursorPosition.advance_cursor
  split
  · have h := move_to_next_line_bounds { c with x := c.x + 1 }
    exact ⟨by rw [h.1]; omega, h.2⟩
  · next h =>
    simp only [VGA_WIDTH] at h
    refine ⟨?_, hy⟩
    show c.x + 1 < 80
    omega

lemma handle_character_input_bounds (ch : Nat) (c : CursorPosition) (buf : VBuf)
    (hx : c.x < 80) (hy : c.y < 25) :
    (handle_character_input ch c buf).1.x < 80 ∧
    (handle_character_input ch c buf).1.y < 25 := by
  unfold handle_character_input
  split
  · have h := move_to_next_line_bounds c
    exact ⟨by rw [h.1]; omega, h.2⟩
  · split
    · split
      · exact advance_cursor_bounds c hy
      · exact ⟨hx, hy⟩
    · exact ⟨hx, hy⟩

/-- Claim C4: from any in-bounds cursor state (`x < 80`, `y < 25`) the
cursor operations — `TextCursor::write_char`, `TextCursor::write_string`,
and the main loop's character handling on its private cursor — preserve
`x < 80` and `y < 25`; in particular a cursor at row 24 that receives a
newline remains at row 24, for both cursor implementations. -/
theorem cursor_operations_preserve_bounds (c : TextCursor) (m : CursorPosition)
    (b ch : Nat) (text : List Nat) (buf : VBuf)
    (hcx : c.x < 80) (hcy : c.y < 25) (hmx : m.x < 80) (hmy : m.y < 25) :
    ((c.write_char b buf).1.x < 80 ∧ (c.write_char b buf).1.y < 25) ∧
    ((c.write_string text buf).1.x < 80 ∧ (c.write_string text buf).1.y < 25) ∧
    ((handle_character_input ch m buf).1.x < 80 ∧
     (handle_character_input ch m buf).1.y < 25) ∧
    (c.y = 24 → c.new_line.y = 24) ∧
    (m.y = 24 → m.move_to_next_line.y = 24) := by
  refine ⟨TextCursor_write_char_bounds c b buf hcx hcy,
    TextCursor_write_string_bounds c text buf hcx hcy,
    handle_character_input_bounds ch m buf hmx hmy, ?_, ?_⟩
  · intro h24
    unfold TextCursor.new_line
    dsimp only
    rw [h24]
    rfl
  · intro h24
    unfold CursorPosition.move_to_next_line CursorPosition.mtnlY
    dsimp only
    rw [h24]
    rfl

/-- Witness for C4 at concrete in-bounds cursors on row 24. -/
theorem cursor_operations_preserve_bounds_witness :
    (((TextCursor.new 3 24 7).write_char 65 (fun _ => 0)).1.x < 80 ∧
     ((TextCursor.new 3 24 7).write_char 65 (fun _ => 0)).1.y < 25) ∧
    (((TextCursor.new 3 24 7).write_string [10, 65] (fun _ => 0)).1.x < 80 ∧
     ((TextCursor.new 3 24 7).write_string [10, 65] (fun _ => 0)).1.y < 25) ∧
    ((handle_character_input 10 (CursorPosition.mk 3 24) (fun _ => 0)).1.x < 80 ∧
     (handle_character_input 10 (CursorPosition.mk 3 24) (fun _ => 0)).1.y < 25) ∧
    ((TextCursor.new 3 24 7).y = 24 → (TextCursor.new 3 24 7).new_line.y = 24) ∧
    ((CursorPosition.mk 3 24).y = 24 →
      (CursorPosition.mk 3 24).move_to_next_line.y = 24) :=
  cursor_operations_preserve_bounds (TextCursor.new 3 24 7) (CursorPosition.mk 3 24)
    65 10 [10, 65] (fun _ => 0) (by decide) (by decide) (by decide) (by decide)

/-- A sequence of `TextCursor::write_char` calls, threading cursor and
buffer. -/
def writeCharSeq (c : TextCursor) (bs : List Nat) (buf : VBuf) : TextCursor × VBuf :=
  bs.foldl (fun cb b => cb.1.write_char b cb.2) (c, buf)

lemma write_char_invalid_noop (c : TextCursor) (b : Nat) (buf : VBuf)
    (h : 80 ≤ c.x ∨ 25 ≤ c.y) : c.write_char b buf = (c, buf) := by
  have hv : ¬ (c.is_valid_position = true) := by
    simp [TextCursor.is_valid_position, VGA_WIDTH, VGA_HEIGHT]
    omega
  unfold TextCursor.write_char
  rw [if_neg hv]

lemma writeCharSeq_invalid (c : TextCursor) (h : 80 ≤ c.x ∨ 25 ≤ c.y) :
    ∀ (bs : List Nat) (buf : VBuf), writeCharSeq c bs buf = (c, buf) := by
  intro bs
  induction bs with
  | nil => intro buf; rfl
  | cons b rest ih =>
    intro buf
    unfold writeCharSeq at ih ⊢
    rw [List.foldl_cons]
    have hstep : (c, buf).1.write_char b (c, buf).2 = (c, buf) :=
      write_char_invalid_noop c b buf h
    rw [hstep]
    exact ih buf

/-- Claim C10: `TextCursor::new` stores its arguments without validating
them, and for every cursor with `x ≥ 80` or `y ≥ 25`, `write_char` is a
no-op on both the cursor fields and the display buffer, so no sequence of
`write_char` calls alone ever brings such a cursor back in bounds. -/
theorem invalid_cursor_write_char_noop (x y col b : Nat) (c : TextCursor)
    (bs : List Nat) (buf : VBuf) (h : 80 ≤ c.x ∨ 25 ≤ c.y) :
    TextCursor.new x y col = { x := x, y := y, color := col } ∧
    c.write_char b buf = (c, buf) ∧
    writeCharSeq c bs buf = (c, buf) ∧
    (80 ≤ (writeCharSeq c bs buf).1.x ∨ 25 ≤ (writeCharSeq c bs buf).1.y) := by
  refine ⟨rfl, write_char_invalid_noop c b buf h, writeCharSeq_invalid c h bs buf, ?_⟩
  rw [writeCharSeq_invalid c h bs buf]
  exact h

/-- Witness for C10 at the out-of-bounds cursor (80, 0). -/
theorem invalid_cursor_write_char_noop_witness :
    TextCursor.new 80 0 7 = { x := 80, y := 0, color := 7 } ∧
    (TextCursor.new 80 0 7).write_char 65 (fun _ => 0)
      = (TextCursor.new 80 0 7, fun _ => 0) ∧
    writeCharSeq (TextCursor.new 80 0 7) [65, 66] (fun _ => 0)
      = (TextCursor.new 80 0 7, fun _ => 0) ∧
    (80 ≤ (writeCharSeq (TextCursor.new 80 0 7) [65, 66] (fun _ => 0)).1.x ∨
     25 ≤ (writeCharSeq (TextCursor.new 80 0 7) [65, 66] (fun _ => 0)).1.y) :=
  invalid_cursor_write_char_noop 80 0 7 65 (TextCursor.new 80 0 7) [65, 66]
    (fun _ => 0) (Or.inl (by decide))

/-! ## Keyboard polling (claim C9) -/

/-- Claim C9: when a scancode byte is available from the data port
(output-buffer-full bit set), `poll_keyboard` yields 'a' for scancode
0x1E, yields nothing for any scancode with the high bit set (key release,
e.g. 0x9E), and yields nothing for any unmapped scancode (e.g. 0x01). -/
theorem poll_keyboard_cases (status s : Nat)
    (havail : status &&& OUTPUT_BUFFER_FULL ≠ 0) :
    poll_keyboard status 0x1E = some 97 ∧
    (s &&& 0x80 ≠ 0 → poll_keyboard status s = none) ∧
    poll_keyboard status 0x9E = none ∧
    poll_keyboard status 0x01 = none ∧
    (scancode_to_char s = none → poll_keyboard status s = none) := by
  have hr : ∀ d, read_scancode status d = some d := by
    intro d
    rw [read_scancode, if_pos (by simp [is_output_ready, havail])]
  refine ⟨?_, ?_, ?_, ?_, ?_⟩
  · unfold poll_keyboard
    rw [hr 0x1E]
    decide
  · intro hrel
    unfold poll_keyboard
    rw [hr s]
    exact if_neg hrel
  · unfold poll_keyboard
    rw [hr 0x9E]
    decide
  · unfold poll_keyboard
    rw [hr 0x01]
    decide
  · intro hun
    unfold poll_keyboard
    rw [hr s]
    show (if s &&& 0x80 = 0 then scancode_to_char s else none) = none
    by_cases hp : s &&& 0x80 = 0
    · rw [if_pos hp]
      exact hun
    · exact if_neg hp

/-- Witness for C9 with the output-buffer-full status bit set. -/
theorem poll_keyboard_cases_witness :
    poll_keyboard 1 0x1E = some 97 ∧
    ((0x9E : Nat) &&& 0x80 ≠ 0 → poll_keyboard 1 0x9E = none) ∧
    poll_keyboard 1 0x9E = none ∧
    poll_keyboard 1 0x01 = none :=
  ⟨(poll_keyboard_cases 1 0x9E (by decide)).1,
   (poll_keyboard_cases 1 0x9E (by decide)).2.1,
   (poll_keyboard_cases 1 0x9E (by decide)).2.2.1,
   (poll_keyboard_cases 1 0x9E (by decide)).2.2.2.1⟩

end Kernel
